import Mathlib

/-!
Shallow embedding of the todo-fast entity store (src/main.py).

The program is a CRUD HTTP service over one SQLite table of todo items.
The request handlers in `src/main.py` (create_todo, read_todos, read_todo,
update_todo, delete_todo) are embedded as pure functions over an explicit
store state `DB`.  The table rows live in `DB.rows`; the SQLite
auto-increment primary-key sequence lives in `DB.nextId`.

The primary-key assignment itself happens inside SQLite/SQLModel, outside
this repository's sources, so the row-level primitives (`insert` with id
assignment, primary-key `get`, `delete`, `select all`) are modelled from
the spec: a store-wide counter, strictly increasing, origin 1 for the
table-backed variant, rows returned in primary-key order.  Everything the
handlers themselves do (not-found checks, field replacement, response
construction, error messages) is translated directly from `src/main.py`.
-/

/-- One row of the todo table: `class TodoItem(SQLModel, table=True)` in
src/main.py (lines 42-47).  In the table a live row always has an id, so a
stored row carries a plain `Nat` id; `title` and `completed` are the two
caller-owned fields. -/
structure TodoItem where
  id : Nat
  title : String
  completed : Bool
deriving Repr, DecidableEq

/-- A request body parsed into the `TodoItem` pydantic model: `id` is
`Optional[int] = None` (line 43), so a payload may or may not carry an id;
`title : str` is required and `completed : bool` defaults to false at the
boundary. -/
structure TodoPayload where
  id : Option Nat
  title : String
  completed : Bool
deriving Repr, DecidableEq

/-- Modelled from the spec: the table-backed store state.  `rows` is the
todo table contents in primary-key order of insertion; `nextId` is the
SQLite auto-increment sequence for the `id` primary key (the assignment is
performed by SQLite, not by code under src/): a store-wide counter,
strictly increasing, never reused, origin 1 for the table-backed
variant. -/
structure DB where
  rows : List TodoItem
  nextId : Nat
deriving Repr, DecidableEq

/-- A fresh store: the table `create_db_and_tables` makes at startup is
empty and its id sequence starts at 1 (table-backed origin per the
spec). -/
def freshDB : DB := { rows := [], nextId := 1 }

/-- Modelled from the spec: `session.get(TodoItem, todo_id)` — primary-key
lookup, returning the live row with that id when one exists.  SQLite's
primary-key lookup itself is outside src/. -/
def DB.getRow (db : DB) (i : Nat) : Option TodoItem :=
  db.rows.find? (fun t => t.id == i)

/-- The HTTP error raised by the handlers:
`HTTPException(status_code=..., detail=...)`. -/
structure HTTPError where
  statusCode : Nat
  detail : String
deriving Repr, DecidableEq

/-- The not-found error every handler raises for a dead id:
`HTTPException(status_code=404, detail="Todo not found")` (src/main.py
lines 79, 87, 105). -/
def notFound : HTTPError := { statusCode := 404, detail := "Todo not found" }

/-- The response produced when a database error escapes a handler: the
spec allows backing-table failures to propagate as an unhandled server
error, which the framework surfaces as a 500. -/
def serverError : HTTPError :=
  { statusCode := 500, detail := "Internal Server Error" }

/-- Insertion of a row into the table keeping `rows` in primary-key
order (the representation `DB.rows` uses). -/
def insertByPk (t : TodoItem) : List TodoItem → List TodoItem
  | [] => [t]
  | u :: us => if t.id < u.id then t :: u :: us else u :: insertByPk t us

/-- The `create_todo` handler (src/main.py lines 56-66): the request body
is bound to the table model `TodoItem` itself and handed to
`session.add` as-is, so a payload that carries an id inserts that very
id as the row's primary key — inserting it at its primary-key position
in `rows`, bumping the auto-increment sequence past it, and violating
the primary-key constraint (an IntegrityError escaping as an unhandled
server error) when a live row already has that id.  When the payload
carries no id, SQLite assigns one; that assignment is outside src/ and
is modelled from the spec: the store-wide counter value `db.nextId`
becomes the new row's id and the counter advances.  The handler's
`if todo.title is None` guard (line 59) is unreachable here because
`title : str` is required at the boundary.  On success, returns the full
entity (the committed-and-refreshed row) and the new store state. -/
def create_todo (todo : TodoPayload) (db : DB) :
    Except HTTPError (TodoItem × DB) :=
  match todo.id with
  | none =>
    let assigned : TodoItem :=
      { id := db.nextId, title := todo.title, completed := todo.completed }
    .ok (assigned, { rows := db.rows ++ [assigned], nextId := db.nextId + 1 })
  | some j =>
    match db.getRow j with
    | some _ => .error serverError
    | none =>
      let assigned : TodoItem :=
        { id := j, title := todo.title, completed := todo.completed }
      .ok (assigned,
        { rows := insertByPk assigned db.rows,
          nextId := max db.nextId (j + 1) })

/-- The `read_todos` handler (src/main.py lines 69-72):
`session.exec(select(TodoItem)).all()` — all live rows, in primary-key
order (modelled from the spec for the table scan).  A pure read: the store
state comes back unchanged. -/
def read_todos (db : DB) : List TodoItem × DB :=
  (db.rows, db)

/-- The `read_todo` handler (src/main.py lines 75-80): primary-key lookup;
404 "Todo not found" when absent, otherwise the row. -/
def read_todo (todo_id : Nat) (db : DB) : Except HTTPError TodoItem × DB :=
  match db.getRow todo_id with
  | none => (.error notFound, db)
  | some t => (.ok t, db)

/-- The `update_todo` handler (src/main.py lines 83-98): primary-key
lookup; 404 when absent; otherwise overwrites `title` and `completed` on
the fetched row with the payload's values (lines 92-93; the payload's id
field is never read), commits, and returns the post-update row. -/
def update_todo (todo_id : Nat) (todo_update : TodoPayload) (db : DB) :
    Except HTTPError TodoItem × DB :=
  match db.getRow todo_id with
  | none => (.error notFound, db)
  | some db_todo =>
    let updated : TodoItem :=
      { db_todo with title := todo_update.title, completed := todo_update.completed }
    (.ok updated,
      { db with rows := db.rows.map (fun t => if t.id == todo_id then updated else t) })

/-- The `delete_todo` handler (src/main.py lines 101-109): primary-key
lookup; 404 when absent; otherwise deletes the row and commits, returning
the fixed confirmation message. -/
def delete_todo (todo_id : Nat) (db : DB) : Except HTTPError String × DB :=
  match db.getRow todo_id with
  | none => (.error notFound, db)
  | some _ =>
    (.ok "Todo deleted successfully",
      { db with rows := db.rows.filter (fun t => t.id != todo_id) })

/-- One store operation, as issued by a client against the service. -/
inductive Op where
  | create (title : String) (completed : Bool)
  | get (i : Nat)
  | update (i : Nat) (title : String) (completed : Bool)
  | delete (i : Nat)
deriving Repr, DecidableEq

/-- The store state after one operation (responses discarded; a failed
operation leaves the state untouched, exactly as the handlers do).
`Op.create` carries the spec's `create(title, completed)` payload, so its
body has no id and the create never fails. -/
def applyOp (db : DB) : Op → DB
  | .create t c =>
    match create_todo { id := none, title := t, completed := c } db with
    | .ok (_, db') => db'
    | .error _ => db
  | .get i => (read_todo i db).2
  | .update i t c => (update_todo i { id := none, title := t, completed := c } db).2
  | .delete i => (delete_todo i db).2

/-- The store state after a sequence of operations. -/
def runOps (db : DB) : List Op → DB
  | [] => db
  | op :: ops => runOps (applyOp db op) ops

/-- The ids assigned by the create calls of an operation sequence, in
order of assignment. -/
def assignedIds (db : DB) : List Op → List Nat
  | [] => []
  | .create t c :: ops =>
      db.nextId :: assignedIds (applyOp db (.create t c)) ops
  | op :: ops => assignedIds (applyOp db op) ops

/-- The store invariant every reachable state satisfies: every live row's
id is below the id counter, and rows are strictly sorted by id (hence ids
are pairwise distinct: at most one row per id). -/
def StoreInv (db : DB) : Prop :=
  (∀ t ∈ db.rows, t.id < db.nextId) ∧
    db.rows.Pairwise (fun a b => a.id < b.id)

instance (db : DB) : Decidable (StoreInv db) := by
  unfold StoreInv; infer_instance

/-! ### Basic lookup lemmas -/

lemma getRow_eq_none_iff (db : DB) (i : Nat) :
    db.getRow i = none ↔ ∀ t ∈ db.rows, t.id ≠ i := by
  simp [DB.getRow, List.find?_eq_none]

lemma getRow_some_id {db : DB} {i : Nat} {t : TodoItem}
    (h : db.getRow i = some t) : t.id = i := by
  unfold DB.getRow at h
  simpa using List.find?_some h

lemma mem_of_getRow {db : DB} {i : Nat} {t : TodoItem}
    (h : db.getRow i = some t) : t ∈ db.rows := by
  unfold DB.getRow at h
  exact List.mem_of_find?_eq_some h

/-- On a strictly id-sorted row list, looking up a member's id finds
exactly that member. -/
lemma find?_of_mem_sorted {rows : List TodoItem} {t : TodoItem}
    (hp : rows.Pairwise (fun a b => a.id < b.id)) (hm : t ∈ rows) :
    rows.find? (fun u => u.id == t.id) = some t := by
  induction rows with
  | nil => cases hm
  | cons hd tl ih =>
    rcases List.mem_cons.mp hm with rfl | hm'
    · simp [List.find?_cons]
    · have hlt : hd.id < t.id := (List.pairwise_cons.mp hp).1 t hm'
      rw [List.find?_cons_of_neg _ (by simp [Nat.ne_of_lt hlt])]
      exact ih (List.pairwise_cons.mp hp).2 hm'

lemma getRow_of_mem {db : DB} {t : TodoItem}
    (hp : db.rows.Pairwise (fun a b => a.id < b.id)) (hm : t ∈ db.rows) :
    db.getRow t.id = some t :=
  find?_of_mem_sorted hp hm

/-! ### The in-place replacement performed by update -/

/-- Replacing the rows whose id matches `i` by a row with id `i` leaves
the list of ids untouched. -/
lemma map_replace_ids {rows : List TodoItem} {i : Nat} {new : TodoItem}
    (hnew : new.id = i) :
    (rows.map (fun t => if t.id == i then new else t)).map TodoItem.id
      = rows.map TodoItem.id := by
  induction rows with
  | nil => rfl
  | cons hd tl ih =>
    simp only [List.map_cons]
    rw [ih]
    by_cases h : hd.id = i <;> simp [h, hnew]

/-- After the in-place replacement, looking up the addressed id finds the
replacement row.  Needs only that some row matched (update's lookup
succeeded). -/
lemma find?_map_replace {rows : List TodoItem} {i : Nat} {r new : TodoItem}
    (hfind : rows.find? (fun t => t.id == i) = some r) (hnew : new.id = i) :
    (rows.map (fun t => if t.id == i then new else t)).find?
        (fun t => t.id == i) = some new := by
  induction rows with
  | nil => simp at hfind
  | cons hd tl ih =>
    by_cases h : hd.id = i
    · simp [h, hnew]
    · rw [List.find?_cons_of_neg _ (by simp [h])] at hfind
      simpa [h] using ih hfind

/-- The in-place replacement leaves every non-addressed row untouched. -/
lemma map_replace_filter_ne {rows : List TodoItem} {i : Nat} {new : TodoItem}
    (hnew : new.id = i) :
    (rows.map (fun t => if t.id == i then new else t)).filter
        (fun t => t.id != i) = rows.filter (fun t => t.id != i) := by
  induction rows with
  | nil => rfl
  | cons hd tl ih =>
    simp only [List.map_cons, List.filter_cons]
    rw [ih]
    by_cases h : hd.id = i <;> simp [h, hnew]

/-- Deleting the unique row carrying a present id shortens the list by
exactly one. -/
lemma filter_ne_length {rows : List TodoItem} {i : Nat}
    (hp : rows.Pairwise (fun a b => a.id < b.id))
    (hmem : ∃ t ∈ rows, t.id = i) :
    (rows.filter (fun t => t.id != i)).length + 1 = rows.length := by
  induction rows with
  | nil => simp at hmem
  | cons hd tl ih =>
    by_cases h : hd.id = i
    · have htl : tl.filter (fun t => t.id != i) = tl := by
        apply List.filter_eq_self.mpr
        intro t ht
        have : hd.id < t.id := (List.pairwise_cons.mp hp).1 t ht
        simp [Nat.ne_of_gt (h ▸ this)]
      simp [h, htl]
    · obtain ⟨t, ht, hti⟩ := hmem
      rcases List.mem_cons.mp ht with rfl | ht'
      · exact absurd hti h
      · have := ih (List.pairwise_cons.mp hp).2 ⟨t, ht', hti⟩
        simp [h, Nat.succ_inj, this]

/-- An element is in the primary-key insertion exactly when it is the
inserted row or was already in the list. -/
lemma mem_insertByPk {t u : TodoItem} {l : List TodoItem} :
    u ∈ insertByPk t l ↔ u = t ∨ u ∈ l := by
  induction l with
  | nil => simp [insertByPk]
  | cons hd tl ih =>
    by_cases h : t.id < hd.id
    · simp [insertByPk, h]
    · simp only [insertByPk, if_neg h, List.mem_cons, ih]
      tauto

/-- Searching for the id of a row that is in the list and is the only
row carrying that id finds exactly that row, whatever the order. -/
lemma find?_eq_some_of_unique {l : List TodoItem} {new : TodoItem}
    (hmem : new ∈ l) (huniq : ∀ u ∈ l, u.id = new.id → u = new) :
    l.find? (fun u => u.id == new.id) = some new := by
  induction l with
  | nil => cases hmem
  | cons hd tl ih =>
    by_cases h : hd.id = new.id
    · have hhd : hd = new := huniq hd (List.mem_cons_self _ _) h
      subst hhd
      simp [List.find?_cons, h]
    · rw [List.find?_cons_of_neg _ (by simp [h])]
      have hmem' : new ∈ tl := by
        rcases List.mem_cons.mp hmem with rfl | hm
        · exact absurd rfl h
        · exact hm
      exact ih hmem' fun u hu => huniq u (List.mem_cons_of_mem _ hu)

/-! ### Invariant preservation -/

lemma storeInv_freshDB : StoreInv freshDB := by
  constructor <;> simp [freshDB]

/-- The state effect of the spec's create(title, completed) operation. -/
lemma applyOp_create (title : String) (c : Bool) (db : DB) :
    applyOp db (.create title c)
      = { rows := db.rows ++ [{ id := db.nextId, title := title, completed := c }],
          nextId := db.nextId + 1 } := rfl

lemma storeInv_create (title : String) (c : Bool) {db : DB}
    (h : StoreInv db) : StoreInv (applyOp db (.create title c)) := by
  obtain ⟨hb, hp⟩ := h
  rw [applyOp_create]
  constructor
  · intro t ht
    simp only [List.mem_append, List.mem_singleton] at ht
    rcases ht with ht | rfl
    · exact Nat.lt_succ_of_lt (hb t ht)
    · exact Nat.lt_succ_self _
  · simp only [List.pairwise_append]
    exact ⟨hp, List.pairwise_singleton _ _, by
      intro a ha b hb'
      simp only [List.mem_singleton] at hb'
      subst hb'
      exact hb a ha⟩

lemma storeInv_update (i : Nat) (p : TodoPayload) {db : DB} (h : StoreInv db) :
    StoreInv (update_todo i p db).2 := by
  obtain ⟨hb, hp⟩ := h
  cases hg : db.getRow i with
  | none => simpa [update_todo, hg] using ⟨hb, hp⟩
  | some r =>
    have hrid : r.id = i := getRow_some_id hg
    have hids :
        (db.rows.map (fun t =>
            if t.id == i
            then ({ r with title := p.title, completed := p.completed } : TodoItem)
            else t)).map TodoItem.id = db.rows.map TodoItem.id :=
      map_replace_ids hrid
    simp only [update_todo, hg]
    constructor
    · intro t ht
      have hmem : t.id ∈ db.rows.map TodoItem.id := by
        rw [← hids]
        exact List.mem_map_of_mem _ ht
      obtain ⟨u, hu, hut⟩ := List.mem_map.mp hmem
      rw [← hut]
      exact hb u hu
    · have h1 : (db.rows.map TodoItem.id).Pairwise (· < ·) :=
        (List.pairwise_map).mpr hp
      rw [← hids] at h1
      exact (List.pairwise_map).mp h1

lemma storeInv_delete (i : Nat) {db : DB} (h : StoreInv db) :
    StoreInv (delete_todo i db).2 := by
  obtain ⟨hb, hp⟩ := h
  cases hg : db.getRow i with
  | none => simpa [delete_todo, hg] using ⟨hb, hp⟩
  | some r =>
    simp only [delete_todo, hg]
    constructor
    · intro t ht
      exact hb t (List.mem_of_mem_filter ht)
    · exact hp.sublist (List.filter_sublist _)

lemma read_todo_snd (i : Nat) (db : DB) : (read_todo i db).2 = db := by
  cases hg : db.getRow i <;> simp [read_todo, hg]

lemma storeInv_applyOp (op : Op) {db : DB} (h : StoreInv db) :
    StoreInv (applyOp db op) := by
  cases op with
  | create t c => exact storeInv_create t c h
  | get i => rw [applyOp, read_todo_snd]; exact h
  | update i t c => exact storeInv_update _ _ h
  | delete i => exact storeInv_delete _ h

lemma storeInv_runOps (ops : List Op) {db : DB} (h : StoreInv db) :
    StoreInv (runOps db ops) := by
  induction ops generalizing db with
  | nil => exact h
  | cons op ops ih => exact ih (storeInv_applyOp op h)

/-! ### The id counter never decreases -/

lemma nextId_update (i : Nat) (p : TodoPayload) (db : DB) :
    (update_todo i p db).2.nextId = db.nextId := by
  cases hg : db.getRow i <;> simp [update_todo, hg]

lemma nextId_delete (i : Nat) (db : DB) :
    (delete_todo i db).2.nextId = db.nextId := by
  cases hg : db.getRow i <;> simp [delete_todo, hg]

lemma nextId_le_applyOp (db : DB) (op : Op) :
    db.nextId ≤ (applyOp db op).nextId := by
  cases op with
  | create t c => exact Nat.le_succ _
  | get i => cases hg : db.getRow i <;> simp [applyOp, read_todo, hg]
  | update i t c => rw [applyOp, nextId_update]
  | delete i => rw [applyOp, nextId_delete]

lemma nextId_le_runOps (db : DB) (ops : List Op) :
    db.nextId ≤ (runOps db ops).nextId := by
  induction ops generalizing db with
  | nil => exact Nat.le_refl _
  | cons op ops ih =>
    exact Nat.le_trans (nextId_le_applyOp db op) (ih (applyOp db op))

/-! ### Ids assigned by create calls -/

lemma assignedIds_lb (db : DB) (ops : List Op) :
    ∀ x ∈ assignedIds db ops, db.nextId ≤ x := by
  induction ops generalizing db with
  | nil => simp [assignedIds]
  | cons op ops ih =>
    cases op with
    | create t c =>
      intro x hx
      simp only [assignedIds, List.mem_cons] at hx
      rcases hx with rfl | hx'
      · exact Nat.le_refl _
      · exact Nat.le_trans (nextId_le_applyOp db _) (ih _ x hx')
    | get i =>
      intro x hx
      simp only [assignedIds] at hx
      exact Nat.le_trans (nextId_le_applyOp db _) (ih _ x hx)
    | update i t c =>
      intro x hx
      simp only [assignedIds] at hx
      exact Nat.le_trans (nextId_le_applyOp db _) (ih _ x hx)
    | delete i =>
      intro x hx
      simp only [assignedIds] at hx
      exact Nat.le_trans (nextId_le_applyOp db _) (ih _ x hx)

lemma assignedIds_pairwise (db : DB) (ops : List Op) :
    (assignedIds db ops).Pairwise (· < ·) := by
  induction ops generalizing db with
  | nil => simp [assignedIds]
  | cons op ops ih =>
    cases op with
    | create t c =>
      simp only [assignedIds]
      refine List.pairwise_cons.mpr ⟨?_, ih _⟩
      intro x hx
      have h1 := assignedIds_lb (applyOp db (.create t c)) ops x hx
      have h2 : (applyOp db (.create t c)).nextId = db.nextId + 1 := rfl
      omega
    | get i => simpa only [assignedIds] using ih _
    | update i t c => simpa only [assignedIds] using ih _
    | delete i => simpa only [assignedIds] using ih _

/-! ### A deleted id stays gone -/

/-- The id `i` is absent from the store and below the id counter, so no
future create can reintroduce it. -/
def Gone (db : DB) (i : Nat) : Prop :=
  (∀ t ∈ db.rows, t.id ≠ i) ∧ i < db.nextId

lemma update_snd_ids (i : Nat) (p : TodoPayload) (db : DB) :
    (update_todo i p db).2.rows.map TodoItem.id = db.rows.map TodoItem.id := by
  cases hg : db.getRow i with
  | none => simp [update_todo, hg]
  | some r =>
    simp only [update_todo, hg]
    exact map_replace_ids (show r.id = i from getRow_some_id hg)

lemma ids_ne_of_map_eq {rows rows' : List TodoItem} {i : Nat}
    (hids : rows'.map TodoItem.id = rows.map TodoItem.id)
    (hr : ∀ t ∈ rows, t.id ≠ i) : ∀ t ∈ rows', t.id ≠ i := by
  intro t ht
  have hm : t.id ∈ rows.map TodoItem.id := by
    rw [← hids]
    exact List.mem_map_of_mem _ ht
  obtain ⟨u, hu, hut⟩ := List.mem_map.mp hm
  rw [← hut]
  exact hr u hu

lemma gone_applyOp {db : DB} {i : Nat} (op : Op) (h : Gone db i) :
    Gone (applyOp db op) i := by
  obtain ⟨hr, hn⟩ := h
  cases op with
  | create t c =>
    rw [applyOp_create]
    refine ⟨?_, Nat.lt_succ_of_lt hn⟩
    intro u hu
    simp only [List.mem_append, List.mem_singleton] at hu
    rcases hu with hu | rfl
    · exact hr u hu
    · exact fun he => Nat.lt_irrefl i (he ▸ hn)
  | get j => rw [applyOp, read_todo_snd]; exact ⟨hr, hn⟩
  | update j t c =>
    refine ⟨ids_ne_of_map_eq (update_snd_ids j _ db) hr, ?_⟩
    rw [applyOp, nextId_update]
    exact hn
  | delete j =>
    cases hg : db.getRow j with
    | none => simp only [applyOp, delete_todo, hg]; exact ⟨hr, hn⟩
    | some r =>
      simp only [applyOp, delete_todo, hg]
      exact ⟨fun u hu => hr u (List.mem_of_mem_filter hu), hn⟩

lemma gone_runOps {db : DB} {i : Nat} (ops : List Op) (h : Gone db i) :
    Gone (runOps db ops) i := by
  induction ops generalizing db with
  | nil => exact h
  | cons op ops ih => exact ih (gone_applyOp op h)

lemma getRow_none_of_gone {db : DB} {i : Nat} (h : Gone db i) :
    db.getRow i = none :=
  (getRow_eq_none_iff db i).mpr h.1

lemma gone_of_delete_ok {db db' : DB} {i : Nat} {m : String}
    (hinv : StoreInv db) (h : delete_todo i db = (.ok m, db')) :
    Gone db' i := by
  cases hg : db.getRow i with
  | none => simp [delete_todo, hg] at h
  | some r =>
    simp only [delete_todo, hg, Prod.mk.injEq] at h
    obtain ⟨-, hdb⟩ := h
    subst hdb
    constructor
    · intro t ht
      have := List.of_mem_filter ht
      simpa using this
    · have hrm : r ∈ db.rows := mem_of_getRow hg
      have := hinv.1 r hrm
      rw [getRow_some_id hg] at this
      exact this

/-! ## Claim theorems -/

/-- C1: over every sequence of store operations (creates, updates, deletes
in any order) starting from a fresh store, the ids assigned by create are
strictly increasing in order of assignment and pairwise distinct, so an id
once assigned is never assigned again, even after its row is deleted. -/
theorem create_ids_strictly_increasing (ops : List Op) :
    ((assignedIds freshDB ops).Pairwise (· < ·)) ∧
      (assignedIds freshDB ops).Nodup :=
  ⟨assignedIds_pairwise _ _,
    (assignedIds_pairwise _ _).imp fun h => Nat.ne_of_lt h⟩

/-- C2: a successful update of a live id replaces both title and completed
with the caller-supplied values, preserves the id, returns the full
post-update entity, and a subsequent get of that id returns exactly that
entity. -/
theorem update_replaces_fields (db db' : DB) (i : Nat) (p : TodoPayload)
    (t : TodoItem) (h : update_todo i p db = (.ok t, db')) :
    t.id = i ∧ t.title = p.title ∧ t.completed = p.completed ∧
      read_todo i db' = (.ok t, db') := by
  cases hg : db.getRow i with
  | none => simp [update_todo, hg] at h
  | some r =>
    simp only [update_todo, hg, Prod.mk.injEq, Except.ok.injEq] at h
    obtain ⟨ht, hdb⟩ := h
    subst ht
    subst hdb
    have hrid : r.id = i := getRow_some_id hg
    refine ⟨hrid, rfl, rfl, ?_⟩
    have hf :
        (db.rows.map (fun u =>
            if u.id == i
            then ({ r with title := p.title, completed := p.completed } : TodoItem)
            else u)).find? (fun u => u.id == i)
          = some { r with title := p.title, completed := p.completed } :=
      find?_map_replace hg hrid
    simp only [read_todo, DB.getRow]
    rw [hf]

/-- C2 witness. -/
theorem update_replaces_fields_witness :
    update_todo 1 ⟨none, "z", true⟩ (⟨[⟨1, "a", false⟩], 2⟩ : DB)
        = (.ok ⟨1, "z", true⟩, (⟨[⟨1, "z", true⟩], 2⟩ : DB)) ∧
      (⟨1, "z", true⟩ : TodoItem).id = 1 ∧
      read_todo 1 (⟨[⟨1, "z", true⟩], 2⟩ : DB)
        = (.ok ⟨1, "z", true⟩, (⟨[⟨1, "z", true⟩], 2⟩ : DB)) := by
  have h := update_replaces_fields (⟨[⟨1, "a", false⟩], 2⟩ : DB)
    (⟨[⟨1, "z", true⟩], 2⟩ : DB) 1 ⟨none, "z", true⟩ ⟨1, "z", true⟩ rfl
  exact ⟨rfl, h.1, h.2.2.2⟩

/-- C3: after a successful delete of an id from a store satisfying the
store invariant, every continuation of the operation sequence keeps that
id absent: get, update and delete on it fail with the not-found error and
no row listed carries it. -/
theorem delete_is_terminal (db db' : DB) (i : Nat) (m : String)
    (hinv : StoreInv db) (h : delete_todo i db = (.ok m, db'))
    (ops : List Op) :
    read_todo i (runOps db' ops) = (.error notFound, runOps db' ops) ∧
    (∀ p, update_todo i p (runOps db' ops)
      = (.error notFound, runOps db' ops)) ∧
    delete_todo i (runOps db' ops) = (.error notFound, runOps db' ops) ∧
    ∀ t ∈ (read_todos (runOps db' ops)).1, t.id ≠ i := by
  have hgone := gone_runOps ops (gone_of_delete_ok hinv h)
  have hn := getRow_none_of_gone hgone
  refine ⟨by simp [read_todo, hn], fun p => by simp [update_todo, hn],
    by simp [delete_todo, hn], fun t ht => hgone.1 t (by simpa [read_todos] using ht)⟩

/-- C3 witness. -/
theorem delete_is_terminal_witness :
    StoreInv (⟨[⟨1, "a", false⟩], 2⟩ : DB) ∧
    delete_todo 1 (⟨[⟨1, "a", false⟩], 2⟩ : DB)
      = (.ok "Todo deleted successfully", (⟨[], 2⟩ : DB)) ∧
    read_todo 1 (runOps (⟨[], 2⟩ : DB) [.create "b" true])
      = (.error notFound, runOps (⟨[], 2⟩ : DB) [.create "b" true]) := by
  refine ⟨by decide, rfl, ?_⟩
  exact (delete_is_terminal (⟨[⟨1, "a", false⟩], 2⟩ : DB) (⟨[], 2⟩ : DB) 1
    "Todo deleted successfully" (by decide) rfl [.create "b" true]).1

/-- C4 counterexample: the claim that the store, not the caller,
allocates the id as the counter's next value fails on the program: a
create whose payload carries id 99 on a fresh store (counter at 1)
inserts and returns id 99, so the caller determined the assigned
identity. -/
theorem create_payload_id_counterexample :
    create_todo ⟨some 99, "x", true⟩ freshDB
      = .ok (⟨99, "x", true⟩, (⟨[⟨99, "x", true⟩], 100⟩ : DB)) ∧
    (99 : Nat) ≠ freshDB.nextId := by
  constructor
  · rfl
  · decide

/-- C4 (amended): for every create whose payload carries no id — the
spec's create(title, completed) shape — the store allocates the counter's
current value as the entity's id (origin 1 for the fresh table-backed
store), appends the entity, advances the counter, and returns the full
entity; when the payload does carry an id, that caller-supplied value
becomes the inserted entity's primary key, so the caller can determine
the assigned identity. -/
theorem create_allocates_next_id (p : TodoPayload) (db : DB) :
    (p.id = none →
      create_todo p db
        = .ok ({ id := db.nextId, title := p.title, completed := p.completed },
            { rows := db.rows
                ++ [{ id := db.nextId, title := p.title, completed := p.completed }],
              nextId := db.nextId + 1 })) ∧
    freshDB.nextId = 1 ∧
    ∀ j t db', p.id = some j → create_todo p db = .ok (t, db') → t.id = j := by
  refine ⟨?_, rfl, ?_⟩
  · intro hp
    obtain ⟨pid, ptitle, pcomp⟩ := p
    simp only at hp
    subst hp
    rfl
  · intro j t db' hp h
    obtain ⟨pid, ptitle, pcomp⟩ := p
    simp only at hp
    subst hp
    cases hg : db.getRow j with
    | some r => simp [create_todo, hg] at h
    | none =>
      simp only [create_todo, hg, Except.ok.injEq, Prod.mk.injEq] at h
      obtain ⟨ht, -⟩ := h
      rw [← ht]

/-- C4 witness. -/
theorem create_allocates_next_id_witness :
    ((⟨none, "x", true⟩ : TodoPayload).id = none ∧
      create_todo ⟨none, "x", true⟩ freshDB
        = .ok (⟨1, "x", true⟩, (⟨[⟨1, "x", true⟩], 2⟩ : DB))) ∧
    ((⟨some 99, "x", true⟩ : TodoPayload).id = some 99 ∧
      (⟨99, "x", true⟩ : TodoItem).id = 99) :=
  ⟨⟨rfl, (create_allocates_next_id ⟨none, "x", true⟩ freshDB).1 rfl⟩,
    ⟨rfl, (create_allocates_next_id ⟨some 99, "x", true⟩ freshDB).2.2 99
      ⟨99, "x", true⟩ (⟨[⟨99, "x", true⟩], 100⟩ : DB) rfl rfl⟩⟩

/-- C5: get, update and delete fail with the fixed 404 error
"Todo not found" exactly when no live row carries the addressed id, and
never fail with it when one does. -/
theorem notfound_iff_dead (db : DB) (i : Nat) (p : TodoPayload) :
    notFound = { statusCode := 404, detail := "Todo not found" } ∧
    ((read_todo i db).1 = .error notFound ↔ ∀ t ∈ db.rows, t.id ≠ i) ∧
    ((update_todo i p db).1 = .error notFound ↔ ∀ t ∈ db.rows, t.id ≠ i) ∧
    ((delete_todo i db).1 = .error notFound ↔ ∀ t ∈ db.rows, t.id ≠ i) := by
  cases hg : db.getRow i with
  | none =>
    have hd := (getRow_eq_none_iff db i).mp hg
    exact ⟨rfl, by simp only [read_todo, hg]; simpa using hd,
      by simp only [update_todo, hg]; simpa using hd,
      by simp only [delete_todo, hg]; simpa using hd⟩
  | some r =>
    have hd : ¬ ∀ t ∈ db.rows, t.id ≠ i :=
      fun hall => hall r (mem_of_getRow hg) (getRow_some_id hg)
    exact ⟨rfl, by simp only [read_todo, hg]; simpa using hd,
      by simp only [update_todo, hg]; simpa using hd,
      by simp only [delete_todo, hg]; simpa using hd⟩

/-- C6: every store operation is atomic: a failed update or delete leaves
the store state exactly as it was, and the read operations never mutate
it.  The store remains a total function of its state, so it stays usable
afterwards. -/
theorem operations_atomic (db : DB) (i : Nat) (p : TodoPayload) :
    (∀ e, (update_todo i p db).1 = .error e → (update_todo i p db).2 = db) ∧
    (∀ e, (delete_todo i db).1 = .error e → (delete_todo i db).2 = db) ∧
    (read_todo i db).2 = db ∧
    (read_todos db).2 = db := by
  cases hg : db.getRow i with
  | none =>
    exact ⟨fun e _ => by simp [update_todo, hg],
      fun e _ => by simp [delete_todo, hg], read_todo_snd i db, rfl⟩
  | some r =>
    exact ⟨fun e he => by simp [update_todo, hg] at he,
      fun e he => by simp [delete_todo, hg] at he, read_todo_snd i db, rfl⟩

/-- C6 witness. -/
theorem operations_atomic_witness :
    (update_todo 1 ⟨none, "x", false⟩ freshDB).1 = .error notFound ∧
    (update_todo 1 ⟨none, "x", false⟩ freshDB).2 = freshDB :=
  ⟨rfl, (operations_atomic freshDB 1 ⟨none, "x", false⟩).1 notFound rfl⟩

/-- C7: on any store satisfying the store invariant, a create with the
spec's (title, completed) payload succeeds, and getting the id of any
just-created entity succeeds and returns exactly the entity create
returned. -/
theorem create_get_roundtrip (db : DB) (p : TodoPayload)
    (hinv : StoreInv db) :
    (p.id = none → ∃ t db', create_todo p db = .ok (t, db')) ∧
    ∀ t db', create_todo p db = .ok (t, db') →
      read_todo t.id db' = (.ok t, db') := by
  constructor
  · intro hp
    obtain ⟨pid, ptitle, pcomp⟩ := p
    simp only at hp
    subst hp
    exact ⟨_, _, rfl⟩
  · intro t db' h
    obtain ⟨pid, ptitle, pcomp⟩ := p
    cases pid with
    | none =>
      simp only [create_todo, Except.ok.injEq, Prod.mk.injEq] at h
      obtain ⟨ht, hdb⟩ := h
      have hmem : t ∈ db'.rows := by
        rw [← hdb, ← ht]
        simp
      have huniq : ∀ u ∈ db'.rows, u.id = t.id → u = t := by
        intro u hu hid
        rw [← hdb] at hu
        simp only [List.mem_append, List.mem_singleton] at hu
        rcases hu with hu | rfl
        · exfalso
          have hlt := hinv.1 u hu
          rw [hid, ← ht] at hlt
          exact Nat.lt_irrefl _ hlt
        · exact ht
      have hfind : db'.getRow t.id = some t :=
        find?_eq_some_of_unique hmem huniq
      simp [read_todo, hfind]
    | some j =>
      cases hg : db.getRow j with
      | some r => simp [create_todo, hg] at h
      | none =>
        simp only [create_todo, hg, Except.ok.injEq, Prod.mk.injEq] at h
        obtain ⟨ht, hdb⟩ := h
        have hnone := (getRow_eq_none_iff db j).mp hg
        have hmem : t ∈ db'.rows := by
          rw [← hdb, ← ht]
          exact mem_insertByPk.mpr (Or.inl rfl)
        have huniq : ∀ u ∈ db'.rows, u.id = t.id → u = t := by
          intro u hu hid
          rw [← hdb] at hu
          rcases mem_insertByPk.mp hu with rfl | hu'
          · exact ht
          · rw [← ht] at hid
            exact absurd hid (hnone u hu')
        have hfind : db'.getRow t.id = some t :=
          find?_eq_some_of_unique hmem huniq
        simp [read_todo, hfind]

/-- C7 witness. -/
theorem create_get_roundtrip_witness :
    StoreInv freshDB ∧
    read_todo 1 (⟨[⟨1, "x", true⟩], 2⟩ : DB)
      = (.ok ⟨1, "x", true⟩, (⟨[⟨1, "x", true⟩], 2⟩ : DB)) :=
  ⟨by decide, (create_get_roundtrip freshDB ⟨none, "x", true⟩ (by decide)).2
    ⟨1, "x", true⟩ (⟨[⟨1, "x", true⟩], 2⟩ : DB) rfl⟩

/-- C8: update and delete only touch the addressed id.  A successful
update keeps the id column unchanged, leaves every other row literally in
place, and every other live entity is still returned intact by get.  A
successful delete removes exactly the addressed row: the listing shrinks
by one, keeps every other row, and no remaining row carries the deleted
id. -/
theorem update_delete_frame (db : DB) (i : Nat) (hinv : StoreInv db) :
    (∀ p t db', update_todo i p db = (.ok t, db') →
      db'.rows.map TodoItem.id = db.rows.map TodoItem.id ∧
      db'.rows.filter (fun u => u.id != i) = db.rows.filter (fun u => u.id != i) ∧
      ∀ u ∈ db.rows, u.id ≠ i → u ∈ db'.rows ∧ read_todo u.id db' = (.ok u, db')) ∧
    (∀ m db', delete_todo i db = (.ok m, db') →
      db'.rows = db.rows.filter (fun u => u.id != i) ∧
      db'.rows.length + 1 = db.rows.length ∧
      (∀ u ∈ db.rows, u.id ≠ i → u ∈ db'.rows) ∧
      ∀ u ∈ db'.rows, u.id ≠ i) := by
  constructor
  · intro p t db' h
    cases hg : db.getRow i with
    | none => simp [update_todo, hg] at h
    | some r =>
      have hrid : r.id = i := getRow_some_id hg
      simp only [update_todo, hg, Prod.mk.injEq, Except.ok.injEq] at h
      obtain ⟨ht, hdb⟩ := h
      have hinv' : StoreInv db' := by
        rw [← hdb]
        have := storeInv_update i p hinv
        simpa only [update_todo, hg] using this
      refine ⟨?_, ?_, ?_⟩
      · rw [← hdb]
        exact map_replace_ids hrid
      · rw [← hdb]
        exact map_replace_filter_ne hrid
      · intro u hu hne
        have hmem : u ∈ db'.rows := by
          rw [← hdb]
          refine List.mem_map.mpr ⟨u, hu, ?_⟩
          simp [hne]
        have hfind := getRow_of_mem hinv'.2 hmem
        exact ⟨hmem, by simp [read_todo, hfind]⟩
  · intro m db' h
    cases hg : db.getRow i with
    | none => simp [delete_todo, hg] at h
    | some r =>
      simp only [delete_todo, hg, Prod.mk.injEq] at h
      obtain ⟨-, hdb⟩ := h
      refine ⟨by rw [← hdb], ?_, ?_, ?_⟩
      · rw [← hdb]
        exact filter_ne_length hinv.2 ⟨r, mem_of_getRow hg, getRow_some_id hg⟩
      · intro u hu hne
        rw [← hdb]
        refine List.mem_filter.mpr ⟨hu, ?_⟩
        simp [hne]
      · intro u hu
        rw [← hdb] at hu
        have := List.of_mem_filter hu
        simpa using this

/-- C8 witness. -/
theorem update_delete_frame_witness :
    StoreInv (⟨[⟨1, "a", false⟩, ⟨2, "b", true⟩], 3⟩ : DB) ∧
    (⟨2, "b", true⟩ : TodoItem) ∈ (⟨[⟨1, "z", true⟩, ⟨2, "b", true⟩], 3⟩ : DB).rows ∧
    ([⟨2, "b", true⟩] : List TodoItem).length + 1 = 2 := by
  refine ⟨by decide, ?_, ?_⟩
  · exact (((update_delete_frame (⟨[⟨1, "a", false⟩, ⟨2, "b", true⟩], 3⟩ : DB) 1
      (by decide)).1 ⟨none, "z", true⟩ ⟨1, "z", true⟩
      (⟨[⟨1, "z", true⟩, ⟨2, "b", true⟩], 3⟩ : DB) rfl).2.2
      ⟨2, "b", true⟩ (by decide) (by decide)).1
  · exact ((update_delete_frame (⟨[⟨1, "a", false⟩, ⟨2, "b", true⟩], 3⟩ : DB) 1
      (by decide)).2 "Todo deleted successfully"
      (⟨[⟨2, "b", true⟩], 3⟩ : DB) rfl).2.1

/-- C9: list is a pure read that always succeeds: it returns the live
rows without mutating the store, the result on a fresh store is empty,
the result is in primary-key order, and on any store satisfying the store
invariant an entity is in the listing exactly when get on its id succeeds
and returns it. -/
theorem list_returns_live_rows (db : DB) (hinv : StoreInv db) :
    (read_todos db).2 = db ∧
    read_todos freshDB = ([], freshDB) ∧
    (read_todos db).1.Pairwise (fun a b => a.id < b.id) ∧
    ∀ t : TodoItem, t ∈ (read_todos db).1 ↔ read_todo t.id db = (.ok t, db) := by
  refine ⟨rfl, rfl, hinv.2, ?_⟩
  intro t
  constructor
  · intro ht
    have hfind := getRow_of_mem hinv.2 (by simpa [read_todos] using ht)
    simp [read_todo, hfind]
  · intro ht
    cases hg : db.getRow t.id with
    | none => simp [read_todo, hg] at ht
    | some r =>
      simp only [read_todo, hg, Prod.mk.injEq, Except.ok.injEq] at ht
      obtain ⟨rfl, -⟩ := ht
      simpa [read_todos] using mem_of_getRow hg

/-- C9 witness. -/
theorem list_returns_live_rows_witness :
    StoreInv (⟨[⟨1, "a", false⟩], 2⟩ : DB) ∧
    (read_todos (⟨[⟨1, "a", false⟩], 2⟩ : DB)).2 = (⟨[⟨1, "a", false⟩], 2⟩ : DB) ∧
    read_todos freshDB = ([], freshDB) :=
  ⟨by decide,
    (list_returns_live_rows (⟨[⟨1, "a", false⟩], 2⟩ : DB) (by decide)).1,
    (list_returns_live_rows (⟨[⟨1, "a", false⟩], 2⟩ : DB) (by decide)).2.1⟩

/-- C10: the outcome of update is keyed by the path id only: two payloads
agreeing on title and completed but carrying different (or absent) id
fields produce the same returned entity and the same resulting store. -/
theorem update_ignores_payload_id (db : DB) (i : Nat) (p q : TodoPayload)
    (ht : p.title = q.title) (hc : p.completed = q.completed) :
    update_todo i p db = update_todo i q db := by
  obtain ⟨pid, ptitle, pcomp⟩ := p
  obtain ⟨qid, qtitle, qcomp⟩ := q
  simp only at ht hc
  subst ht
  subst hc
  cases hg : db.getRow i <;> simp [update_todo, hg]

/-- C10 witness. -/
theorem update_ignores_payload_id_witness :
    update_todo 1 ⟨some 99, "x", true⟩ (⟨[⟨1, "a", false⟩], 2⟩ : DB)
      = update_todo 1 ⟨none, "x", true⟩ (⟨[⟨1, "a", false⟩], 2⟩ : DB) :=
  update_ignores_payload_id (⟨[⟨1, "a", false⟩], 2⟩ : DB) 1
    ⟨some 99, "x", true⟩ ⟨none, "x", true⟩ rfl rfl

/-- C1 witness: a concrete mixed sequence of creates and a delete. -/
theorem create_ids_strictly_increasing_witness :
    (assignedIds freshDB
        [.create "a" false, .delete 1, .create "b" true]).Pairwise (· < ·) :=
  (create_ids_strictly_increasing
    [.create "a" false, .delete 1, .create "b" true]).1

/-- C5 witness: get(999) on a fresh store fails with the fixed message. -/
theorem notfound_iff_dead_witness :
    (read_todo 999 freshDB).1 = .error notFound :=
  (notfound_iff_dead freshDB 999 ⟨none, "x", false⟩).2.1.mpr
    (by simp [freshDB])
